import Mathlib

set_option linter.unusedVariables false

/-!
Verification of the node port of the pyzk ZKTeco client library.

Buffers are modelled as `List Nat` with every byte < 256; JavaScript numbers
are modelled as `Nat` (with explicit `% 2^32` / `% 2^16` where the source
applies 32-bit coercions such as `>>> 0` or `& 0xffff`).  Definitions follow
the source files:

  * `src/unnamed/part_000`  (utils: checksum, header, time codec, comm key)
  * `src/unnamed/part_001`  (User record packers)
  * `src/unnamed/part_002`  (ZK class: `__create_checksum`, `__create_header`,
    `read_with_buffer`, `get_users`)
  * `src/node-zk/src/zk.js` (ZK class: `readWithBuffer`, `getUsers`,
    `setUser`, `connect`, `_sendCommand`)
-/

namespace Pyzk

/-! ### Protocol constants -/

/-- Modelled from the spec: `const.js` / `constants.js` are required by the
source but are not under `src/`; the value `USHRT_MAX = 65535` is taken from
spec section 6 ("USHRT_MAX wrap value: 65535"). -/
def USHRT_MAX : Nat := 65535

/-- Modelled from the spec: command code `CMD_ACK_OK = 2000` (spec section 6). -/
def CMD_ACK_OK : Nat := 2000

/-- Modelled from the spec: command code `CMD_PREPARE_DATA = 1500` (spec section 6). -/
def CMD_PREPARE_DATA : Nat := 1500

/-- Modelled from the spec: command code `CMD_DATA = 1501` (spec section 6). -/
def CMD_DATA : Nat := 1501

/-- Modelled from the spec: privilege value `USER_DEFAULT = 0` (spec section 6). -/
def USER_DEFAULT : Nat := 0

/-- Modelled from the spec: privilege value `USER_ADMIN = 14` (spec section 6). -/
def USER_ADMIN : Nat := 14

/-! ### Byte-level primitives -/

/-- `buffer.readUInt16LE(i)`: the 16-bit little-endian word at offset `i`.
Out-of-range offsets read as zero (our uses stay in range). -/
def readU16 (buf : List Nat) (i : Nat) : Nat :=
  buf.getD i 0 + buf.getD (i + 1) 0 * 256

/-- `buffer.readUInt32LE(i)`: the 32-bit little-endian word at offset `i`. -/
def readU32 (buf : List Nat) (i : Nat) : Nat :=
  buf.getD i 0 + buf.getD (i + 1) 0 * 256 +
    buf.getD (i + 2) 0 * 65536 + buf.getD (i + 3) 0 * 16777216

/-- The two bytes written by `buffer.writeUInt16LE(v)` (little-endian). -/
def u16le (v : Nat) : List Nat := [v % 256, v / 256 % 256]

/-- The four bytes written by `buffer.writeUInt32LE(v)` (little-endian). -/
def u32le (v : Nat) : List Nat :=
  [v % 256, v / 256 % 256, v / 65536 % 256, v / 16777216 % 256]

/-! ### Checksum (`createChecksum` in part_000, `ZK.__create_checksum` in part_002)

Both sources share the same accumulation loop: add the 16-bit little-endian
words, subtracting `USHRT_MAX` once whenever the running sum exceeds it, and
add a trailing odd byte as-is.  They differ in the final complement step:
part_000 computes `(~checksum) & 0xffff` while part_002 computes
`~checksum`, adds `USHRT_MAX` while negative, then masks with `0xffff`. -/

/-- The word-accumulation loop shared by both checksum implementations
(part_000 lines 74-85, part_002 lines 458-470). -/
def checksumWords : List Nat → Nat → Nat
  | a :: b :: rest, acc =>
      let acc := acc + (a + b * 256)
      let acc := if acc > USHRT_MAX then acc - USHRT_MAX else acc
      checksumWords rest acc
  | [a], acc => acc + a
  | [], acc => acc

/-- `while (checksum > USHRT_MAX) checksum -= USHRT_MAX` (part_000 lines 87-89,
part_002 lines 471-473). -/
def reduceUSHRT (c : Nat) : Nat :=
  if h : c > USHRT_MAX then reduceUSHRT (c - USHRT_MAX) else c
termination_by c
decreasing_by simp only [USHRT_MAX] at *; omega

/-- `while (checksum < 0) checksum += USHRT_MAX` on a JavaScript (signed) number
(part_002 lines 475-477). -/
def addUntilNonneg (i : Int) : Int :=
  if h : i < 0 then addUntilNonneg (i + 65535) else i
termination_by (-i).toNat
decreasing_by omega

/-- `createChecksum` (part_000 lines 69-93).  The final step is the JavaScript
expression `(~checksum) & 0xffff`; on the 32-bit value `c` this is
`(2^32 - 1 - c) % 2^16`. -/
def createChecksum (buffer : List Nat) : Nat :=
  let c := reduceUSHRT (checksumWords buffer 0)
  (4294967295 - c % 4294967296) % 65536

/-- `ZK.__create_checksum` (part_002 lines 455-479).  The final steps are
`checksum = ~checksum` (on a signed number, `-(c+1)`), then the
add-while-negative loop, then `& 0xffff`. -/
def ZK_create_checksum (buffer : List Nat) : Nat :=
  let c := reduceUSHRT (checksumWords buffer 0)
  (addUntilNonneg (-(c + 1 : Int))).toNat % 65536

/-! ### Header composition and parsing -/

/-- `readHeader` (part_000 lines 157-164): `(command, checksum, session, reply)`.
`ZK.__unpack_header` (part_002 lines 425-432) reads the same four words. -/
def readHeader (buf : List Nat) : Nat × Nat × Nat × Nat :=
  (readU16 buf 0, readU16 buf 2, readU16 buf 4, readU16 buf 6)

/-- `createHeader` (part_000 lines 95-112): write command, a zero checksum
placeholder, session, and the incremented reply id; append the payload; compute
the checksum over that buffer; patch it into bytes 2-3. -/
def createHeader (command : Nat) (commandString : List Nat)
    (sessionId replyId : Nat) : List Nat :=
  let nextReplyId := if replyId + 1 ≥ USHRT_MAX then replyId + 1 - USHRT_MAX else replyId + 1
  let merged := u16le command ++ u16le 0 ++ u16le sessionId ++ u16le nextReplyId ++ commandString
  let checksum := createChecksum merged
  u16le command ++ u16le checksum ++ u16le sessionId ++ u16le nextReplyId ++ commandString

/-- `ZK.__create_header` (part_002 lines 434-453): the checksum is computed over
the buffer that still carries the *pre-increment* `replyId` in bytes 6-7; the
returned packet carries the incremented reply id. -/
def ZK_create_header (command : Nat) (commandString : List Nat)
    (sessionId replyId : Nat) : List Nat :=
  let payload := u16le command ++ u16le 0 ++ u16le sessionId ++ u16le replyId ++ commandString
  let checksum := ZK_create_checksum payload
  let nextReply := if replyId + 1 ≥ USHRT_MAX then replyId + 1 - USHRT_MAX else replyId + 1
  u16le command ++ u16le checksum ++ u16le sessionId ++ u16le nextReply ++ commandString

/-- Zero the checksum field (bytes 2-3) of a packet, as the "checksum computed
over the packet as transmitted with the checksum bytes zeroed" reading of the
spec requires. -/
def zeroChecksumField (packet : List Nat) : List Nat :=
  (packet.set 2 0).set 3 0

/-- The 8 header bytes of the first `CMD_CONNECT` packet
(command=1000, checksum placeholder 0, session=0, reply=65534). -/
def connectHeaderBytes : List Nat := [0xE8, 0x03, 0x00, 0x00, 0x00, 0x00, 0xFE, 0xFF]

/-! ### Time codec (`decodeTime` / `encodeTime`, part_000 lines 122-155) -/

/-- A JavaScript `Date` in its normalized (calendar-valid) form, restricted to
the six components the time codec touches. -/
structure DateTuple where
  year : Nat
  month : Nat
  day : Nat
  hour : Nat
  minute : Nat
  second : Nat
  deriving DecidableEq, Repr

/-- Gregorian leap-year rule, as implemented by the JavaScript `Date` object. -/
def isLeapYear (y : Nat) : Bool :=
  (y % 4 == 0 && y % 100 != 0) || y % 400 == 0

/-- Number of days of month `m` (1-12) in year `y`, per the Gregorian calendar
used by the JavaScript `Date` object. -/
def daysInMonth (y m : Nat) : Nat :=
  if m = 2 then (if isLeapYear y then 29 else 28)
  else if m = 4 ∨ m = 6 ∨ m = 9 ∨ m = 11 then 30
  else 31

/-- The day-overflow normalization performed by the JavaScript `Date`
constructor `new Date(year, month - 1, day, hour, minute, second)` on the
argument ranges produced by `decodeTime` (month ∈ 1..12, day ∈ 1..31): a day
count past the end of the month rolls over into the following month.  On this
range at most one month of overflow can occur (the excess over a month of at
least 28 days is at most 3 days, and every month has at least 28 days), so a
single carry step is the exact `Date` semantics here. -/
def normalizeDate (y m d : Nat) : Nat × Nat × Nat :=
  if d ≤ daysInMonth y m then (y, m, d)
  else if m = 12 then (y + 1, 1, d - 31)
  else (y, m + 1, d - daysInMonth y m)

/-- `decodeTime` (part_000 lines 122-141) on the u32 read from the buffer:
the nested modulo/divide chain (60, 60, 24, 31, 12), followed by the `Date`
constructor's normalization. -/
def decodeTimeVal (raw : Nat) : DateTuple :=
  let second := raw % 60
  let t := raw / 60
  let minute := t % 60
  let t := t / 60
  let hour := t % 24
  let t := t / 24
  let day := t % 31 + 1
  let t := t / 31
  let month := t % 12 + 1
  let year := t / 12 + 2000
  let ymd := normalizeDate year month day
  ⟨ymd.1, ymd.2.1, ymd.2.2, hour, minute, second⟩

/-- `decodeTime` applied to a byte buffer (`buffer.readUInt32LE(0)`). -/
def decodeTime (buf : List Nat) : DateTuple :=
  decodeTimeVal (readU32 buf 0)

/-- `encodeTime` (part_000 lines 143-155): components are read back from the
(normalized) `Date`; the year enters as `getFullYear() % 100`; the result is
coerced with `>>> 0` (i.e. modulo `2^32`). -/
def encodeTime (dt : DateTuple) : Nat :=
  ((dt.year % 100 * 12 * 31 + (dt.month - 1) * 31 + dt.day - 1) * (24 * 60 * 60)
    + (dt.hour * 60 + dt.minute) * 60 + dt.second) % 4294967296

/-! ### Buffered bulk read (`readWithBuffer` in zk.js lines 167-199,
`ZK.read_with_buffer` in part_002 lines 237-286)

Both implementations share the same chunking arithmetic:
`remain = size % maxChunk`, `packets = Math.floor((size - remain) / maxChunk)`,
then `packets` reads of `maxChunk` bytes at `start = 0, maxChunk, ...` and one
final read of `remain` bytes when `remain` is nonzero. -/

/-- `this.tcp ? 0xffc0 : 16 * 1024` (zk.js line 168, part_002 line 238). -/
def maxChunkFor (tcp : Bool) : Nat := if tcp then 0xffc0 else 16 * 1024

/-- The `for (let i = 0; i < packets; i += 1)` loop: returns the list of
`(start, size)` read-buffer requests and the final value of `start`. -/
def rwbLoop (packets maxChunk start : Nat) : List (Nat × Nat) × Nat :=
  match packets with
  | 0 => ([], start)
  | p + 1 =>
      let rest := rwbLoop p maxChunk (start + maxChunk)
      ((start, maxChunk) :: rest.1, rest.2)

/-- The `_CMD_READ_BUFFER` requests issued for a total size `size` with chunk
limit `maxChunk`, and the accumulated `start` (the returned `size`). -/
def readWithBufferRequests (size maxChunk : Nat) : List (Nat × Nat) × Nat :=
  let remain := size % maxChunk
  let packets := (size - remain) / maxChunk
  let loop := rwbLoop packets maxChunk 0
  if remain ≠ 0 then (loop.1 ++ [(loop.2, remain)], loop.2 + remain) else loop

/-- Commands sent by the bulk-read flow, as recorded by the effect log. -/
inductive SentCmd where
  | prepareBuffer
  | readBuffer (start size : Nat)
  | freeData
  deriving DecidableEq, Repr

/-- The chunk loop of the bulk read, with an oracle giving each chunk read's
outcome.  A failing chunk read propagates its error immediately (there is no
`try`/`finally` around the loop in either source). -/
def chunkLoop (oracle : Nat → Nat → Except Unit (List Nat)) :
    List (Nat × Nat) → List SentCmd → List (List Nat) →
    List SentCmd × Except Unit (List (List Nat))
  | [], log, acc => (log, .ok acc)
  | (s, z) :: rest, log, acc =>
      match oracle s z with
      | .error e => (log ++ [.readBuffer s z], .error e)
      | .ok d => chunkLoop oracle rest (log ++ [.readBuffer s z]) (acc ++ [d])

/-- The chunked branch of `readWithBuffer` / `read_with_buffer` after a
`CMD_ACK_OK` prepare-buffer reply announcing total length `N`: run the chunk
loop; only when every chunk succeeded is `CMD_FREE_DATA` sent, after which the
concatenated buffer and the accumulated size are returned.  A chunk error
leaves the function before the `CMD_FREE_DATA` line (zk.js lines 186-198,
part_002 lines 273-285). -/
def readWithBufferRun (tcp : Bool) (N : Nat)
    (oracle : Nat → Nat → Except Unit (List Nat)) :
    List SentCmd × Except Unit (List Nat × Nat) :=
  let reqs := readWithBufferRequests N (maxChunkFor tcp)
  match chunkLoop oracle reqs.1 [.prepareBuffer] [] with
  | (log, .error e) => (log, .error e)
  | (log, .ok chunks) => (log ++ [.freeData], .ok (chunks.flatten, reqs.2))

/-! ### Authentication key (`makeCommKey`, part_000 lines 32-67 and part_002
lines 19-48; both bodies are the same algorithm) -/

/-- `makeCommKey`: the bit-reversal loop
(`for i in 0..31: k = (k << 1) | (pass bit i)`), `k += sessionId` followed by
`k >>> 0` (modulo `2^32`), the `'Z' 'K' 'S' 'O'` XOR, the 16-bit half swap done
with `readUInt16LE`/`writeUInt16LE`, and the ticks mixing
(`B = 0xff & ticks`; bytes 0, 1, 3 XOR `B`; byte 2 set to `B`). -/
def makeCommKey (key sessionId : Nat) (ticks : Nat := 50) : List Nat :=
  let k := (List.range 32).foldl
    (fun k i => if key.testBit i then 2 * k + 1 else 2 * k) 0
  let k := (k + sessionId) % 4294967296
  let tmp := u32le k
  let xored := [tmp.getD 0 0 ^^^ 90, tmp.getD 1 0 ^^^ 75,
                tmp.getD 2 0 ^^^ 83, tmp.getD 3 0 ^^^ 79]
  let swapped := u16le (readU16 xored 2) ++ u16le (readU16 xored 0)
  let B := ticks % 256
  [swapped.getD 0 0 ^^^ B, swapped.getD 1 0 ^^^ B, B, swapped.getD 3 0 ^^^ B]

/-- The reference algorithm as the claim words it: reverse the low 32 bits of
`P` bit-by-bit into `K` (bit `i` of `P` becomes bit `31 - i` of `K`); add `S`
and keep the low 32 bits; XOR the 4 little-endian bytes with the ASCII codes of
`'Z'`, `'K'`, `'S'`, `'O'` (90, 75, 83, 79); swap the two 16-bit halves; XOR
bytes 0, 1, 3 with `ticks & 0xFF` and set byte 2 to `ticks & 0xFF`. -/
def makeCommKeySpec (P S ticks : Nat) : List Nat :=
  let K := ∑ i ∈ Finset.range 32, (if P.testBit i then 2 ^ (31 - i) else 0)
  let K := (K + S) % 2 ^ 32
  let b := fun j => K / 256 ^ j % 256
  let x := fun j => [b 0 ^^^ 90, b 1 ^^^ 75, b 2 ^^^ 83, b 3 ^^^ 79].getD j 0
  let sw := fun j => [x 2, x 3, x 0, x 1].getD j 0
  let B := ticks &&& 0xff
  [sw 0 ^^^ B, sw 1 ^^^ B, B, sw 3 ^^^ B]

/-! ### The node-zk `ZK` client state and `_sendCommand` reply processing
(zk.js lines 493-510) -/

/-- The fields of the node-zk `ZK` instance that the modelled operations
touch. -/
structure ZKState where
  isConnected : Bool
  sessionId : Nat
  replyId : Nat
  password : Nat
  deriving DecidableEq, Repr

/-- The result object of `_sendCommand`: `{ status, code, header, data }`
(the header is recoverable from `raw`, so it is not duplicated here). -/
structure SendResult where
  state : ZKState
  status : Bool
  code : Nat
  data : List Nat
  deriving DecidableEq, Repr

/-- The reply processing of `_sendCommand` (zk.js lines 503-509): parse the
8-byte header, store session and reply ids, classify the command code via
`[CMD_ACK_OK, CMD_PREPARE_DATA, CMD_DATA].includes(code)`. -/
def sendCommandProcess (st : ZKState) (raw : List Nat) : SendResult :=
  let header := readHeader (raw.take 8)
  let st' := { st with sessionId := header.2.2.1, replyId := header.2.2.2 }
  let code := header.1
  let status := ([CMD_ACK_OK, CMD_PREPARE_DATA, CMD_DATA].contains code)
  ⟨st', status, code, raw.drop 8⟩

/-! ### `connect` (zk.js lines 49-71) -/

/-- Modelled from the spec: command code `CMD_CONNECT = 1000` (spec section 6). -/
def CMD_CONNECT : Nat := 1000

/-- Modelled from the spec: command code `CMD_AUTH = 1102` (spec section 6). -/
def CMD_AUTH : Nat := 1102

/-- Modelled from the spec: ack code `CMD_ACK_UNAUTH = 2005` (spec section 6). -/
def CMD_ACK_UNAUTH : Nat := 2005

/-- Externally visible actions of `connect`: opening the socket and sending a
packet. -/
inductive ConnectEffect where
  | createSocket
  | sendPacket (command : Nat) (payload : List Nat)
  deriving DecidableEq, Repr

/-- `connect` (zk.js lines 49-71), with the device's raw replies supplied by
`oracle n` (the reply to the `n`-th packet sent).  An already-connected client
returns immediately (`if (this.isConnected) return this`); otherwise the socket
is created, session/reply ids are reset, `CMD_CONNECT` is sent, the session id
is adopted from the reply, `CMD_AUTH` follows when the reply is
`CMD_ACK_UNAUTH`, and a final non-ok reply raises. -/
def connectModel (st : ZKState) (oracle : Nat → List Nat) :
    ZKState × List ConnectEffect × Except String Unit :=
  if st.isConnected then (st, [], .ok ())
  else
    let st1 := { st with sessionId := 0, replyId := USHRT_MAX - 1 }
    let raw1 := oracle 0
    let r1 := sendCommandProcess st1 raw1
    let st2 := { r1.state with sessionId := (readHeader (raw1.take 8)).2.2.1 }
    let eff1 := [ConnectEffect.createSocket, ConnectEffect.sendPacket CMD_CONNECT []]
    if r1.code = CMD_ACK_UNAUTH then
      let authPayload := makeCommKey st2.password st2.sessionId 50
      let r2 := sendCommandProcess st2 (oracle 1)
      let eff2 := eff1 ++ [ConnectEffect.sendPacket CMD_AUTH authPayload]
      if r2.status = false ∧ r2.code ≠ CMD_ACK_OK then
        (r2.state, eff2, .error "Invalid response while connecting")
      else ({ r2.state with isConnected := true }, eff2, .ok ())
    else
      if r1.status = false ∧ r1.code ≠ CMD_ACK_OK then
        (st2, eff1, .error "Invalid response while connecting")
      else ({ st2 with isConnected := true }, eff1, .ok ())

/-! ### `getUsers` hint maintenance (zk.js lines 213-263, part_002
`get_users` lines 288-351)

JavaScript strings are modelled as their lists of UTF-16 code units
(`List Nat`); `String(n)` is the decimal representation. -/

/-- The decimal digits of `n`, most significant first (`String(n)` digit by
digit; `natDigits 0 = [0]`). -/
def natDigits (n : Nat) : List Nat :=
  if h : n < 10 then [n] else natDigits (n / 10) ++ [n % 10]
termination_by n
decreasing_by omega

/-- The JavaScript string `String(n)` as a list of character codes
(digit `d` has code `48 + d`). -/
def natStrCodes (n : Nat) : List Nat := (natDigits n).map (fun d => 48 + d)

/-- A user as parsed by `getUsers`, restricted to the two fields the hint
maintenance reads. -/
structure ParsedUser where
  uid : Nat
  userId : List Nat
  deriving DecidableEq, Repr

/-- `if (uid > maxUid) maxUid = uid` folded over the parsed records. -/
def maxUidOf (users : List ParsedUser) : Nat :=
  users.foldl (fun m u => if u.uid > m then u.uid else m) 0

/-- The collision-avoidance loop
`while (users.find(u => u.userId === String(n))) n += 1` shared by both
implementations, with explicit fuel (the loop can run at most `users.length`
times because successive candidates map to distinct strings, which the
accompanying theorems prove). -/
def collisionLoop (users : List ParsedUser) : Nat → Nat → Nat
  | 0, n => n
  | fuel + 1, n =>
      if users.any (fun u => u.userId == natStrCodes n) then
        collisionLoop users fuel (n + 1)
      else n

/-- The final hint assignment of zk.js `getUsers` (lines 256-261): `nextUid`
and `nextUserId` advance together through the collision loop. -/
def getUsersHints (users : List ParsedUser) : Nat × List Nat :=
  let n := collisionLoop users (users.length + 1) (maxUidOf users + 1)
  (n, natStrCodes n)

/-- The final hint assignment of part_002 `get_users` (lines 343-349):
`next_uid` stays at `maxUid + 1` while only `next_user_id` advances through the
collision loop. -/
def get_users_hints (users : List ParsedUser) : Nat × List Nat :=
  let nextUid := maxUidOf users + 1
  let m := collisionLoop users (users.length + 1) (maxUidOf users + 1)
  (nextUid, natStrCodes m)

/-! ### `setUser` record packing (zk.js lines 265-307) -/

/-- `[CONST.USER_DEFAULT, CONST.USER_ADMIN].includes(privilege) ? privilege
: CONST.USER_DEFAULT` (zk.js line 273). -/
def setUserPriv (privilege : Nat) : Nat :=
  if ([USER_DEFAULT, USER_ADMIN].contains privilege) then privilege else USER_DEFAULT

/-- A string field of `width` bytes: the copied bytes (truncated to the field
width) over the zero-filled buffer. -/
def fieldBytes (width : Nat) (s : List Nat) : List Nat :=
  s.take width ++ List.replicate (width - (s.take width).length) 0

/-- The 28-byte `setUser` payload (zk.js lines 276-285): uid 0:2,
privilege 2:1, password 3:5, name 8:8, card 16:4, zero byte 20, group 21:1,
zeros 22:2, numeric user id 24:4. -/
def setUserPayload28 (uid privilege : Nat) (password name : List Nat)
    (card groupByte userIdNum : Nat) : List Nat :=
  u16le uid ++ [setUserPriv privilege] ++ fieldBytes 5 password ++
    fieldBytes 8 name ++ u32le card ++ [0] ++ [groupByte] ++ [0, 0] ++
    u32le userIdNum

/-- The 72-byte `setUser` payload (zk.js lines 287-294): uid 0:2,
privilege 2:1, password 3:8, name 11:24, card 35:4, zero byte 39, group 40:7,
zero byte 47, user id 48:24. -/
def setUserPayload72 (uid privilege : Nat) (password name : List Nat)
    (card : Nat) (groupId userId : List Nat) : List Nat :=
  u16le uid ++ [setUserPriv privilege] ++ fieldBytes 8 password ++
    fieldBytes 24 name ++ u32le card ++ [0] ++ fieldBytes 7 groupId ++ [0] ++
    fieldBytes 24 userId

/-! ## Theorems -/

/-- Unfolding lemma for the reduce-while loop (the definition is by
well-founded recursion, so concrete values are evaluated by rewriting). -/
lemma reduceUSHRT_eq_ite (c : Nat) :
    reduceUSHRT c = if c > 65535 then reduceUSHRT (c - 65535) else c := by
  rw [reduceUSHRT]; simp [USHRT_MAX]

/-- Unfolding lemma for the add-while-negative loop. -/
lemma addUntilNonneg_eq_ite (i : Int) :
    addUntilNonneg i = if i < 0 then addUntilNonneg (i + 65535) else i := by
  rw [addUntilNonneg]; simp

/-- C1, counterexample: on the 8 connect-header bytes neither checksum
implementation returns the value `0x17F5` stated by the spec. -/
theorem C1_counterexample :
    createChecksum connectHeaderBytes ≠ 0x17F5 ∧
    ZK_create_checksum connectHeaderBytes ≠ 0x17F5 := by
  constructor
  · simp [connectHeaderBytes, createChecksum, checksumWords, USHRT_MAX,
      reduceUSHRT_eq_ite]
  · simp [connectHeaderBytes, ZK_create_checksum, checksumWords, USHRT_MAX,
      reduceUSHRT_eq_ite, addUntilNonneg_eq_ite]

/-- C1, amended: on the 8 header bytes `[E8 03 00 00 00 00 FE FF]`
(command=1000, session=0, reply=65534, empty payload) the part_000 checksum
returns `0xFC18` and the part_002 checksum returns `0xFC17`, so the packets
with the checksum written into bytes 2-3 are
`[E8 03 18 FC 00 00 FE FF]` and `[E8 03 17 FC 00 00 FE FF]` respectively. -/
theorem C1_checksum_connect :
    createChecksum connectHeaderBytes = 0xFC18 ∧
    ZK_create_checksum connectHeaderBytes = 0xFC17 ∧
    u16le 1000 ++ u16le (createChecksum connectHeaderBytes) ++ u16le 0 ++ u16le 65534
      = [0xE8, 0x03, 0x18, 0xFC, 0x00, 0x00, 0xFE, 0xFF] ∧
    u16le 1000 ++ u16le (ZK_create_checksum connectHeaderBytes) ++ u16le 0 ++ u16le 65534
      = [0xE8, 0x03, 0x17, 0xFC, 0x00, 0x00, 0xFE, 0xFF] := by
  have h1 : createChecksum connectHeaderBytes = 0xFC18 := by
    simp [connectHeaderBytes, createChecksum, checksumWords, USHRT_MAX,
      reduceUSHRT_eq_ite]
  have h2 : ZK_create_checksum connectHeaderBytes = 0xFC17 := by
    simp [connectHeaderBytes, ZK_create_checksum, checksumWords, USHRT_MAX,
      reduceUSHRT_eq_ite, addUntilNonneg_eq_ite]
  refine ⟨h1, h2, ?_, ?_⟩ <;> simp [h1, h2, u16le]

lemma createChecksum_lt (buf : List Nat) : createChecksum buf < 65536 := by
  simp only [createChecksum]
  exact Nat.mod_lt _ (by norm_num)

lemma ZK_create_checksum_lt (buf : List Nat) : ZK_create_checksum buf < 65536 := by
  simp only [ZK_create_checksum]
  exact Nat.mod_lt _ (by norm_num)

/-- Parsing an 8-byte header composed of four 16-bit words recovers them. -/
lemma readHeader_concat (a b c d : Nat) (payload : List Nat)
    (ha : a < 65536) (hb : b < 65536) (hc : c < 65536) (hd : d < 65536) :
    readHeader (u16le a ++ u16le b ++ u16le c ++ u16le d ++ payload)
      = (a, b, c, d) := by
  simp only [readHeader, readU16, u16le, List.cons_append, List.nil_append,
    List.getD_cons_zero, List.getD_cons_succ, Prod.mk.injEq]
  refine ⟨?_, ?_, ?_, ?_⟩ <;> omega

/-- Zeroing bytes 2-3 of a composed packet zeroes exactly its checksum word. -/
lemma zeroChecksumField_concat (a b c d : Nat) (payload : List Nat) :
    zeroChecksumField (u16le a ++ u16le b ++ u16le c ++ u16le d ++ payload)
      = u16le a ++ u16le 0 ++ u16le c ++ u16le d ++ payload := by
  simp [zeroChecksumField, u16le]

/-- The reply-increment of both header builders equals `(replyId + 1) % 65535`
for 16-bit reply ids. -/
lemma nextReply_eq_mod (replyId : Nat) (hr : replyId < 65536) :
    (if replyId + 1 ≥ USHRT_MAX then replyId + 1 - USHRT_MAX else replyId + 1)
      = (replyId + 1) % USHRT_MAX := by
  simp only [USHRT_MAX]; split <;> omega

/-- C2, counterexample: for `__create_header` (part_002) with command 1000,
session 0, reply 0, empty payload, the checksum field of the produced packet
does not validate against the packet as transmitted with the checksum bytes
zeroed (the source computed it over the pre-increment reply id). -/
theorem C2_counterexample :
    (readHeader (ZK_create_header 1000 [] 0 0)).2.1
      ≠ ZK_create_checksum (zeroChecksumField (ZK_create_header 1000 [] 0 0)) := by
  simp [ZK_create_header, ZK_create_checksum, checksumWords, USHRT_MAX, u16le,
    reduceUSHRT_eq_ite, addUntilNonneg_eq_ite, readHeader, readU16,
    zeroChecksumField]

/-- C2, amended: for every 16-bit command, session and reply id and every
payload, both header builders produce a packet whose first 8 bytes parse back
(via `readHeader`) to the command, the session, and `(reply + 1) % 65535`; the
checksum field of the part_000 packet is the checksum of the packet as
transmitted with the checksum bytes zeroed, while the checksum field of the
part_002 packet is the checksum of the packet with checksum bytes zeroed and
the *pre-increment* reply id in bytes 6-7. -/
theorem C2_header_roundtrip (command sessionId replyId : Nat) (payload : List Nat)
    (hc : command < 65536) (hs : sessionId < 65536) (hr : replyId < 65536) :
    readHeader (createHeader command payload sessionId replyId)
      = (command,
         createChecksum (zeroChecksumField (createHeader command payload sessionId replyId)),
         sessionId, (replyId + 1) % USHRT_MAX) ∧
    readHeader (ZK_create_header command payload sessionId replyId)
      = (command,
         ZK_create_checksum
           (u16le command ++ u16le 0 ++ u16le sessionId ++ u16le replyId ++ payload),
         sessionId, (replyId + 1) % USHRT_MAX) := by
  have hmod : (replyId + 1) % USHRT_MAX < 65536 := by
    simp only [USHRT_MAX]; omega
  constructor
  · simp only [createHeader, nextReply_eq_mod replyId hr]
    rw [zeroChecksumField_concat]
    exact readHeader_concat _ _ _ _ _ hc (createChecksum_lt _) hs hmod
  · simp only [ZK_create_header, nextReply_eq_mod replyId hr]
    exact readHeader_concat _ _ _ _ _ hc (ZK_create_checksum_lt _) hs hmod

/-- C2, witness: the amended round-trip at command=1000, session=0x1234,
reply=65534, payload `[0x01, 0x02]`. -/
theorem C2_header_roundtrip_witness :
    1000 < 65536 ∧ 0x1234 < 65536 ∧ 65534 < 65536 ∧
    (readHeader (createHeader 1000 [0x01, 0x02] 0x1234 65534)
      = (1000,
         createChecksum (zeroChecksumField (createHeader 1000 [0x01, 0x02] 0x1234 65534)),
         0x1234, (65534 + 1) % USHRT_MAX) ∧
     readHeader (ZK_create_header 1000 [0x01, 0x02] 0x1234 65534)
      = (1000,
         ZK_create_checksum
           (u16le 1000 ++ u16le 0 ++ u16le 0x1234 ++ u16le 65534 ++ [0x01, 0x02]),
         0x1234, (65534 + 1) % USHRT_MAX)) :=
  ⟨by norm_num, by norm_num, by norm_num,
   C2_header_roundtrip 1000 0x1234 65534 [0x01, 0x02]
     (by norm_num) (by norm_num) (by norm_num)⟩

/-- `decodeTime`'s nested divide chain in terms of single divisions. -/
lemma decodeTimeVal_eq (x : Nat) :
    decodeTimeVal x =
      ⟨(normalizeDate (x / 32140800 + 2000) (x / 2678400 % 12 + 1) (x / 86400 % 31 + 1)).1,
       (normalizeDate (x / 32140800 + 2000) (x / 2678400 % 12 + 1) (x / 86400 % 31 + 1)).2.1,
       (normalizeDate (x / 32140800 + 2000) (x / 2678400 % 12 + 1) (x / 86400 % 31 + 1)).2.2,
       x / 3600 % 24, x / 60 % 60, x % 60⟩ := by
  simp [decodeTimeVal, Nat.div_div_eq_div_mul]

/-- C3, counterexample: `x = 5270400` encodes the legal tuple
`(2000, 2, 31, 0, 0, 0)` (February 31, year 2000), but `decodeTime` builds a
JavaScript `Date`, which normalizes it to March 2, so the round trip returns
5443200, not `x`. -/
theorem C3_counterexample :
    decodeTimeVal 5270400 = ⟨2000, 3, 2, 0, 0, 0⟩ ∧
    encodeTime (decodeTimeVal 5270400) = 5443200 ∧
    encodeTime (decodeTimeVal 5270400) ≠ 5270400 := by
  refine ⟨by decide, by decide, by decide⟩

/-- C3, amended: `encodeTime (decodeTime x) = x` for every u32 `x` whose
decoded tuple is a *calendar-valid* date (the day does not exceed the
Gregorian length of the month) with year at most 2099; for tuples that are
merely legal under the device encoding (day up to 31 in every month) the
`Date` constructor inside `decodeTime` normalizes the date and the round trip
fails. -/
theorem C3_roundtrip (x : Nat) (hx : x < 4294967296)
    (hyear : x / 32140800 + 2000 ≤ 2099)
    (hday : x / 86400 % 31 + 1
      ≤ daysInMonth (x / 32140800 + 2000) (x / 2678400 % 12 + 1)) :
    encodeTime (decodeTimeVal x) = x := by
  rw [decodeTimeVal_eq]
  simp only [normalizeDate, if_pos hday]
  simp only [encodeTime]
  have h0 : x / 60 / 60 = x / 3600 := by
    rw [Nat.div_div_eq_div_mul]
  have h1 : x / 3600 / 24 = x / 86400 := by
    rw [Nat.div_div_eq_div_mul]
  have h2 : x / 86400 / 31 = x / 2678400 := by
    rw [Nat.div_div_eq_div_mul]
  have h3 : x / 2678400 / 12 = x / 32140800 := by
    rw [Nat.div_div_eq_div_mul]
  have d1 : x / 86400 = 31 * (x / 2678400) + x / 86400 % 31 := by
    rw [← h2]; exact (Nat.div_add_mod _ 31).symm
  have d2 : x / 2678400 = 12 * (x / 32140800) + x / 2678400 % 12 := by
    rw [← h3]; exact (Nat.div_add_mod _ 12).symm
  have d3 : x / 3600 = 24 * (x / 86400) + x / 3600 % 24 := by
    rw [← h1]; exact (Nat.div_add_mod _ 24).symm
  have d4 : x / 60 = 60 * (x / 3600) + x / 60 % 60 := by
    rw [← h0]; exact (Nat.div_add_mod _ 60).symm
  have d5 : x = 60 * (x / 60) + x % 60 := (Nat.div_add_mod x 60).symm
  have hy100 : (x / 32140800 + 2000) % 100 = x / 32140800 := by omega
  omega

/-- C3, witness: the amended round trip at `x = 5443200`
(2000-03-02 00:00:00). -/
theorem C3_roundtrip_witness :
    5443200 < 4294967296 ∧ 5443200 / 32140800 + 2000 ≤ 2099 ∧
    5443200 / 86400 % 31 + 1
      ≤ daysInMonth (5443200 / 32140800 + 2000) (5443200 / 2678400 % 12 + 1) ∧
    encodeTime (decodeTimeVal 5443200) = 5443200 :=
  ⟨by norm_num, by norm_num, by decide,
   C3_roundtrip 5443200 (by norm_num) (by norm_num) (by decide)⟩

/-- The chunk-request loop issues requests `(s, c), (s+c, c), ...` and leaves
`start` at `s + packets * c`. -/
lemma rwbLoop_spec (p c : Nat) : ∀ s, rwbLoop p c s =
    ((List.range p).map (fun i => (s + i * c, c)), s + p * c) := by
  induction p with
  | zero => intro s; simp [rwbLoop]
  | succ n ih =>
      intro s
      simp only [rwbLoop, ih (s + c), List.range_succ_eq_map, List.map_cons,
        List.map_map, Prod.mk.injEq, List.cons.injEq]
      refine ⟨⟨by simp, ?_⟩, by ring⟩
      refine List.map_congr_left (fun i _ => ?_)
      simp only [Function.comp_apply, Prod.mk.injEq, Nat.succ_eq_add_one]
      refine ⟨by ring, by simp⟩

/-- Closed form of the request list: `N / C` full chunks at starts
`0, C, 2C, ...` followed by one request of `N % C` bytes when the remainder is
nonzero; the accumulated `start` is `N`. -/
lemma readWithBufferRequests_spec (N C : Nat) (hC : 0 < C) :
    (readWithBufferRequests N C).1
      = (List.range (N / C)).map (fun i => (i * C, C)) ++
        (if N % C = 0 then [] else [(N / C * C, N % C)]) ∧
    (readWithBufferRequests N C).1.length = N / C + (if N % C = 0 then 0 else 1) ∧
    (readWithBufferRequests N C).2 = N := by
  have hsub : N - N % C = C * (N / C) := by
    have := Nat.div_add_mod N C
    omega
  have hp : (N - N % C) / C = N / C := by
    rw [hsub, Nat.mul_div_cancel_left _ hC]
  have hNsum : N / C * C + N % C = N := by
    have := Nat.div_add_mod N C
    calc N / C * C + N % C = C * (N / C) + N % C := by ring
    _ = N := Nat.div_add_mod N C
  simp only [readWithBufferRequests, hp, rwbLoop_spec, Nat.zero_add]
  by_cases h : N % C = 0
  · simp [h, hNsum]
    omega
  · simp [h, hNsum]

/-- C4, confirmed: when the prepare-buffer reply announces total length
`N > 0`, the bulk read issues exactly `⌈N / C⌉` read-buffer requests, where
`C = 0xFFC0` on the stream carrier and `C = 16384` on the datagram carrier:
`⌊N / C⌋` requests of size `C` at starts `0, C, 2C, ...` followed by one
request of size `N % C` when that remainder is nonzero; the ranges tile
`[0, N)` contiguously and the returned size is `N`. -/
theorem C4_chunk_requests (tcp : Bool) (N : Nat) (hN : 0 < N) :
    (readWithBufferRequests N (maxChunkFor tcp)).1
      = (List.range (N / maxChunkFor tcp)).map
          (fun i => (i * maxChunkFor tcp, maxChunkFor tcp)) ++
        (if N % maxChunkFor tcp = 0 then []
         else [(N / maxChunkFor tcp * maxChunkFor tcp, N % maxChunkFor tcp)]) ∧
    (readWithBufferRequests N (maxChunkFor tcp)).1.length
      = (N + maxChunkFor tcp - 1) / maxChunkFor tcp ∧
    (readWithBufferRequests N (maxChunkFor tcp)).2 = N := by
  have hC : 0 < maxChunkFor tcp := by cases tcp <;> simp [maxChunkFor]
  obtain ⟨h1, h2, h3⟩ := readWithBufferRequests_spec N (maxChunkFor tcp) hC
  refine ⟨h1, ?_, h3⟩
  rw [h2]
  cases tcp <;> norm_num [maxChunkFor] <;> split <;> omega

/-- C4, witness: the spec's literal scenario — `N = 0x12345` on the stream
carrier (`C = 0xFFC0`) splits into one full chunk and a `0x2385`-byte
remainder. -/
theorem C4_chunk_requests_witness :
    0 < 0x12345 ∧
    ((readWithBufferRequests 0x12345 (maxChunkFor true)).1
      = (List.range (0x12345 / maxChunkFor true)).map
          (fun i => (i * maxChunkFor true, maxChunkFor true)) ++
        (if 0x12345 % maxChunkFor true = 0 then []
         else [(0x12345 / maxChunkFor true * maxChunkFor true,
                0x12345 % maxChunkFor true)]) ∧
     (readWithBufferRequests 0x12345 (maxChunkFor true)).1.length
      = (0x12345 + maxChunkFor true - 1) / maxChunkFor true ∧
     (readWithBufferRequests 0x12345 (maxChunkFor true)).2 = 0x12345) :=
  ⟨by norm_num, C4_chunk_requests true 0x12345 (by norm_num)⟩

/-- The chunk loop only ever appends read-buffer commands to the log. -/
lemma chunkLoop_log (oracle : Nat → Nat → Except Unit (List Nat)) :
    ∀ (reqs : List (Nat × Nat)) (log : List SentCmd) (acc : List (List Nat)),
      ∃ l', (chunkLoop oracle reqs log acc).1 = log ++ l' ∧
        ∀ x ∈ l', ∃ s z, x = SentCmd.readBuffer s z := by
  intro reqs
  induction reqs with
  | nil =>
      intro log acc
      exact ⟨[], by simp [chunkLoop], by simp⟩
  | cons hd tl ih =>
      intro log acc
      obtain ⟨s, z⟩ := hd
      cases horacle : oracle s z with
      | error e =>
          refine ⟨[SentCmd.readBuffer s z], ?_, ?_⟩
          · simp [chunkLoop, horacle]
          · intro x hx
            simp at hx
            exact ⟨s, z, hx⟩
      | ok d =>
          obtain ⟨l', h1, h2⟩ := ih (log ++ [SentCmd.readBuffer s z]) (acc ++ [d])
          refine ⟨SentCmd.readBuffer s z :: l', ?_, ?_⟩
          · simp [chunkLoop, horacle, h1]
          · intro x hx
            rcases List.mem_cons.mp hx with h | h
            · exact ⟨s, z, h⟩
            · exact h2 x h

/-- C5, counterexample: on the stream carrier with announced length `0x12345`,
an oracle whose first chunk read fails makes the bulk read propagate the error
after having sent the prepare-buffer and the first read-buffer request —
`CMD_FREE_DATA` is never sent (there is no `try`/`finally` around the chunk
loop in either implementation). -/
theorem C5_counterexample :
    (readWithBufferRun true 0x12345 (fun _ _ => Except.error ())).2
      = Except.error () ∧
    SentCmd.readBuffer 0 0xFFC0
      ∈ (readWithBufferRun true 0x12345 (fun _ _ => Except.error ())).1 ∧
    SentCmd.freeData
      ∉ (readWithBufferRun true 0x12345 (fun _ _ => Except.error ())).1 :=
  ⟨rfl, by decide, by decide⟩

/-- C5, amended: `CMD_FREE_DATA` is sent if and only if every chunk read of
the bulk read succeeded; on a chunk-read failure the error propagates to the
caller without `CMD_FREE_DATA` being attempted. -/
theorem C5_free_data_iff (tcp : Bool) (N : Nat)
    (oracle : Nat → Nat → Except Unit (List Nat)) :
    SentCmd.freeData ∈ (readWithBufferRun tcp N oracle).1
      ↔ ∃ r, (readWithBufferRun tcp N oracle).2 = Except.ok r := by
  obtain ⟨l', hl, hmem⟩ := chunkLoop_log oracle
    (readWithBufferRequests N (maxChunkFor tcp)).1 [SentCmd.prepareBuffer] []
  rcases h : chunkLoop oracle (readWithBufferRequests N (maxChunkFor tcp)).1
      [SentCmd.prepareBuffer] [] with ⟨log, res⟩
  rw [h] at hl
  simp only at hl
  cases res with
  | error e =>
      simp only [readWithBufferRun, h]
      constructor
      · intro hin
        rw [hl] at hin
        rcases List.mem_append.mp hin with hin | hin
        · simp at hin
        · obtain ⟨s, z, hx⟩ := hmem _ hin
          simp at hx
      · rintro ⟨r, hr⟩
        simp at hr
  | ok chunks =>
      simp [readWithBufferRun, h]

/-- The source's bit-reversal loop equals the "bit `i` of `P` becomes bit
`n - 1 - i`" sum. -/
lemma revFold_eq (P : Nat) : ∀ n, (List.range n).foldl
      (fun k i => if P.testBit i then 2 * k + 1 else 2 * k) 0
    = ∑ i ∈ Finset.range n, (if P.testBit i then 2 ^ (n - 1 - i) else 0) := by
  intro n
  induction n with
  | zero => simp
  | succ n ih =>
      rw [List.range_succ, List.foldl_append, List.foldl_cons, List.foldl_nil, ih,
        Finset.sum_range_succ]
      have hs : ∑ i ∈ Finset.range n, (if P.testBit i then 2 ^ (n - i) else 0)
          = 2 * ∑ i ∈ Finset.range n, (if P.testBit i then 2 ^ (n - 1 - i) else 0) := by
        rw [Finset.mul_sum]
        refine Finset.sum_congr rfl (fun i hi => ?_)
        have hin : i < n := Finset.mem_range.mp hi
        by_cases hb : P.testBit i
        · have he : n - i = (n - 1 - i) + 1 := by omega
          simp [hb, he, pow_succ, Nat.mul_comm]
        · simp [hb]
      have hexp : ∀ i : Nat, n + 1 - 1 - i = n - i := by intro i; omega
      simp only [hexp]
      rw [hs]
      by_cases hb : P.testBit n
      · simp [hb]
      · simp [hb]

/-- The `readUInt16LE`/`writeUInt16LE` half-swap on a 4-byte buffer swaps the
two 16-bit halves. -/
lemma swap_bytes (x0 x1 x2 x3 : Nat) (h0 : x0 < 256) (h1 : x1 < 256)
    (h2 : x2 < 256) (h3 : x3 < 256) :
    u16le (readU16 [x0, x1, x2, x3] 2) ++ u16le (readU16 [x0, x1, x2, x3] 0)
      = [x2, x3, x0, x1] := by
  simp [u16le, readU16]
  refine ⟨by omega, by omega, by omega, by omega⟩

lemma xor_lt_256 (b c : Nat) (hb : b < 256) (hc : c < 256) : b ^^^ c < 256 := by
  have h := Nat.xor_lt_two_pow (x := b) (y := c) (n := 8)
    (by simpa using hb) (by simpa using hc)
  simpa using h

/-- C6, confirmed: for every u32 password and session id and every ticks byte,
`makeCommKey` (identical in part_000 and part_002) computes exactly the
reference algorithm of the claim: bit-reverse the low 32 bits, add the session
id modulo `2^32`, XOR the little-endian bytes with `'Z' 'K' 'S' 'O'`, swap the
16-bit halves, XOR bytes 0, 1, 3 with `ticks & 0xFF` and set byte 2 to
`ticks & 0xFF`. -/
theorem C6_makeCommKey_matches_spec (P S t : Nat)
    (hP : P < 4294967296) (hS : S < 4294967296) (ht : t < 256) :
    makeCommKey P S t = makeCommKeySpec P S t := by
  have hB : t &&& 0xff = t % 256 := by
    have h := Nat.and_pow_two_sub_one_eq_mod t 8
    norm_num at h
    exact h
  simp only [makeCommKey, makeCommKeySpec, u32le, List.getD_cons_zero,
    List.getD_cons_succ]
  rw [revFold_eq]
  norm_num
  rw [swap_bytes _ _ _ _
    (xor_lt_256 _ _ (Nat.mod_lt _ (by norm_num)) (by norm_num))
    (xor_lt_256 _ _ (Nat.mod_lt _ (by norm_num)) (by norm_num))
    (xor_lt_256 _ _ (Nat.mod_lt _ (by norm_num)) (by norm_num))
    (xor_lt_256 _ _ (Nat.mod_lt _ (by norm_num)) (by norm_num))]
  simp only [List.getD_cons_zero, List.getD_cons_succ, hB]
  norm_num [Nat.mod_eq_of_lt ht]

/-- C6, witness: the key derivation at password 0, session 1, ticks 50. -/
theorem C6_makeCommKey_witness :
    0 < 4294967296 ∧ 1 < 4294967296 ∧ 50 < 256 ∧
    makeCommKey 0 1 50 = makeCommKeySpec 0 1 50 :=
  ⟨by norm_num, by norm_num, by norm_num,
   C6_makeCommKey_matches_spec 0 1 50 (by norm_num) (by norm_num) (by norm_num)⟩

lemma getD_take_of_lt (l : List Nat) (n i : Nat) (h : i < n) :
    (l.take n).getD i 0 = l.getD i 0 := by
  simp [List.getD_eq_getElem?_getD, List.getElem?_take_of_lt h]

/-- `readHeader` on `raw.slice(0, 8)` reads the same words as on `raw`. -/
lemma readU16_take_8 (raw : List Nat) (i : Nat) (h : i + 1 < 8) :
    readU16 (raw.take 8) i = readU16 raw i := by
  simp only [readU16, getD_take_of_lt _ _ _ (by omega : i < 8),
    getD_take_of_lt _ _ _ h]

/-- C7, confirmed: `_sendCommand`'s reply processing returns status `true`
exactly when the reply's command code is `CMD_ACK_OK`, `CMD_PREPARE_DATA` or
`CMD_DATA`, and — success or failure — stores the session and reply fields of
the reply header into the client state (all other state fields are
untouched). -/
theorem C7_sendCommand_classification (st : ZKState) (raw : List Nat) :
    ((sendCommandProcess st raw).status = true ↔
      readU16 raw 0 = CMD_ACK_OK ∨ readU16 raw 0 = CMD_PREPARE_DATA ∨
        readU16 raw 0 = CMD_DATA) ∧
    (sendCommandProcess st raw).code = readU16 raw 0 ∧
    (sendCommandProcess st raw).state.sessionId = readU16 raw 4 ∧
    (sendCommandProcess st raw).state.replyId = readU16 raw 6 ∧
    (sendCommandProcess st raw).state.isConnected = st.isConnected ∧
    (sendCommandProcess st raw).state.password = st.password := by
  simp only [sendCommandProcess, readHeader,
    readU16_take_8 raw 0 (by norm_num), readU16_take_8 raw 2 (by norm_num),
    readU16_take_8 raw 4 (by norm_num), readU16_take_8 raw 6 (by norm_num)]
  refine ⟨?_, by trivial, by trivial, by trivial, by trivial, by trivial⟩
  simp [List.contains_cons, CMD_ACK_OK, CMD_PREPARE_DATA, CMD_DATA]

/-- Reading the decimal digits back yields the number. -/
lemma natDigits_val (n : Nat) :
    (natDigits n).foldl (fun a d => 10 * a + d) 0 = n := by
  induction n using Nat.strong_induction_on with
  | _ n ih =>
      rw [natDigits]
      split
      · simp
      · rename_i h
        rw [List.foldl_append]
        simp only [List.foldl_cons, List.foldl_nil]
        rw [ih (n / 10) (by omega)]
        omega

lemma natDigits_injective : Function.Injective natDigits := by
  intro m n h
  have hm := natDigits_val m
  rw [h, natDigits_val n] at hm
  exact hm.symm

lemma natStrCodes_injective : Function.Injective natStrCodes := by
  intro m n h
  exact natDigits_injective
    (List.map_injective_iff.mpr (fun a b hab => by omega) h)

/-- The collision loop never moves the candidate backwards. -/
lemma collisionLoop_ge (users : List ParsedUser) :
    ∀ fuel n, n ≤ collisionLoop users fuel n := by
  intro fuel
  induction fuel with
  | zero => intro n; simp [collisionLoop]
  | succ f ih =>
      intro n
      simp only [collisionLoop]
      split
      · exact le_trans (by omega) (ih (n + 1))
      · exact le_refl n

/-- If some candidate within the fuel budget is collision-free, the loop
returns a collision-free value. -/
lemma collisionLoop_fresh (users : List ParsedUser) :
    ∀ fuel n,
      (∃ i, i < fuel ∧ ¬ users.any (fun u => u.userId == natStrCodes (n + i))) →
      ¬ users.any (fun u => u.userId == natStrCodes (collisionLoop users fuel n)) := by
  intro fuel
  induction fuel with
  | zero =>
      rintro n ⟨i, hi, _⟩
      omega
  | succ f ih =>
      rintro n ⟨i, hi, hno⟩
      simp only [collisionLoop]
      by_cases hc : users.any (fun u => u.userId == natStrCodes n)
      · rw [if_pos hc]
        apply ih (n + 1)
        rcases Nat.eq_zero_or_pos i with h0 | hpos
        · exfalso
          subst h0
          simp only [Nat.add_zero] at hno
          exact hno hc
        · refine ⟨i - 1, by omega, ?_⟩
          have he : n + 1 + (i - 1) = n + i := by omega
          rw [he]
          exact hno
      · rw [if_neg hc]
        exact hc

/-- Pigeonhole: among `users.length + 1` consecutive candidates at least one
decimal string is absent from the (length-`users.length`) user-id list. -/
lemma exists_noncolliding (users : List ParsedUser) (n0 : Nat) :
    ∃ i, i < users.length + 1 ∧
      ¬ users.any (fun u => u.userId == natStrCodes (n0 + i)) := by
  by_contra hall
  push_neg at hall
  have hmem : ∀ i : Fin (users.length + 1),
      natStrCodes (n0 + i.1) ∈ users.map (fun u => u.userId) := by
    intro i
    have h := hall i.1 i.2
    rw [List.any_eq_true] at h
    obtain ⟨u, hu, hbeq⟩ := h
    rw [beq_iff_eq] at hbeq
    exact hbeq ▸ List.mem_map_of_mem _ hu
  have hinj : Function.Injective
      (fun i : Fin (users.length + 1) => natStrCodes (n0 + i.1)) := by
    intro a b hab
    have h := natStrCodes_injective hab
    exact Fin.ext (by omega)
  have hcard : (Finset.univ : Finset (Fin (users.length + 1))).card
      ≤ (users.map (fun u => u.userId)).toFinset.card :=
    Finset.card_le_card_of_injOn
      (fun i : Fin (users.length + 1) => natStrCodes (n0 + i.1))
      (fun i _ => List.mem_toFinset.mpr (hmem i))
      (fun a _ b _ h => hinj h)
  have h1 : (Finset.univ : Finset (Fin (users.length + 1))).card
      = users.length + 1 := by simp
  have h2 : (users.map (fun u => u.userId)).toFinset.card ≤ users.length :=
    le_trans (List.toFinset_card_le _) (by simp)
  omega

lemma foldl_max_ge_init (users : List ParsedUser) :
    ∀ acc, acc ≤ users.foldl (fun m u => if u.uid > m then u.uid else m) acc := by
  induction users with
  | nil => intro acc; simp
  | cons hd tl ih =>
      intro acc
      rw [List.foldl_cons]
      refine le_trans ?_ (ih _)
      split <;> omega

lemma foldl_max_ge_mem (users : List ParsedUser) :
    ∀ acc u, u ∈ users →
      u.uid ≤ users.foldl (fun m u => if u.uid > m then u.uid else m) acc := by
  induction users with
  | nil =>
      intro acc u h
      simp at h
  | cons hd tl ih =>
      intro acc u h
      rw [List.foldl_cons]
      rcases List.mem_cons.mp h with h | h
      · subst h
        refine le_trans ?_ (foldl_max_ge_init tl _)
        split <;> omega
      · exact ih _ u h

/-- C8, confirmed: after parsing, both implementations leave a `nextUid` hint
strictly greater than every returned uid, and a `nextUserId` hint string
different from every returned user-id string (the collision loop terminates on
a fresh decimal string within `users.length + 1` candidates). -/
theorem C8_getUsers_hints_fresh (users : List ParsedUser) :
    ((∀ u ∈ users, u.uid < (getUsersHints users).1) ∧
     (∀ u ∈ users, u.userId ≠ (getUsersHints users).2)) ∧
    ((∀ u ∈ users, u.uid < (get_users_hints users).1) ∧
     (∀ u ∈ users, u.userId ≠ (get_users_hints users).2)) := by
  have hfresh : ¬ users.any (fun u => u.userId ==
      natStrCodes (collisionLoop users (users.length + 1) (maxUidOf users + 1))) :=
    collisionLoop_fresh users (users.length + 1) (maxUidOf users + 1)
      (exists_noncolliding users (maxUidOf users + 1))
  have hneq : ∀ u ∈ users, u.userId ≠
      natStrCodes (collisionLoop users (users.length + 1) (maxUidOf users + 1)) := by
    intro u hu heq
    apply hfresh
    rw [List.any_eq_true]
    exact ⟨u, hu, by simp [heq]⟩
  have hge := collisionLoop_ge users (users.length + 1) (maxUidOf users + 1)
  refine ⟨⟨?_, ?_⟩, ?_, ?_⟩
  · intro u hu
    have h1 := foldl_max_ge_mem users 0 u hu
    simp only [getUsersHints, maxUidOf] at *
    omega
  · intro u hu
    simpa only [getUsersHints] using hneq u hu
  · intro u hu
    have h1 := foldl_max_ge_mem users 0 u hu
    simp only [get_users_hints, maxUidOf] at *
    omega
  · intro u hu
    simpa only [get_users_hints] using hneq u hu

/-- C9, confirmed: whenever the supplied privilege is neither `USER_DEFAULT`
(0) nor `USER_ADMIN` (14), `setUser` writes `USER_DEFAULT` into byte 2 of the
packed record, in both the 28-byte and the 72-byte layout — the value is
silently coerced, not transmitted or rejected. -/
theorem C9_setUser_privilege_coerced (uid privilege : Nat)
    (password name : List Nat) (card groupByte userIdNum : Nat)
    (groupId userId : List Nat)
    (h0 : privilege ≠ USER_DEFAULT) (h14 : privilege ≠ USER_ADMIN) :
    (setUserPayload28 uid privilege password name card groupByte userIdNum).getD 2 0
      = USER_DEFAULT ∧
    (setUserPayload72 uid privilege password name card groupId userId).getD 2 0
      = USER_DEFAULT := by
  have hc : ([USER_DEFAULT, USER_ADMIN].contains privilege) = false := by
    simp only [USER_DEFAULT, USER_ADMIN] at h0 h14 ⊢
    simp [h0, h14]
  have hp : setUserPriv privilege = USER_DEFAULT := by
    unfold setUserPriv
    rw [hc]
    simp
  constructor
  · simp [setUserPayload28, u16le, hp]
  · simp [setUserPayload72, u16le, hp]

/-- C9, witness: privilege 5 (neither 0 nor 14) is written as 0 in both
layouts. -/
theorem C9_setUser_privilege_witness :
    (5 : Nat) ≠ USER_DEFAULT ∧ (5 : Nat) ≠ USER_ADMIN ∧
    ((setUserPayload28 1 5 [0x31] [0x41] 0 1 1).getD 2 0 = USER_DEFAULT ∧
     (setUserPayload72 1 5 [0x31] [0x41] 0 [0x31] [0x31]).getD 2 0 = USER_DEFAULT) :=
  ⟨by decide, by decide,
   C9_setUser_privilege_coerced 1 5 [0x31] [0x41] 0 1 1 [0x31] [0x31]
     (by decide) (by decide)⟩

/-- C10, confirmed: `connect` on an already-connected client returns the
instance at once — no socket is created, no packet is sent, and the stored
session and reply ids (indeed the whole state) are unchanged. -/
theorem C10_connect_idempotent (st : ZKState) (oracle : Nat → List Nat)
    (h : st.isConnected = true) :
    connectModel st oracle = (st, [], Except.ok ()) := by
  simp [connectModel, h]

/-- C10, witness: a connected client with session 7, reply 9. -/
theorem C10_connect_idempotent_witness :
    (ZKState.mk true 7 9 0).isConnected = true ∧
    connectModel (ZKState.mk true 7 9 0) (fun _ => [])
      = (ZKState.mk true 7 9 0, [], Except.ok ()) :=
  ⟨rfl, C10_connect_idempotent (ZKState.mk true 7 9 0) (fun _ => []) rfl⟩

end Pyzk
